import Mathlib

/-!
Verification development for the `drf_autodocs` endpoint module
(`drf_autodocs/endpoint.py`).

The Python code is shallowly embedded: Python strings become Lean `String`s
(ASCII-oriented, matching the docstrings and HTTP method names the module
handles), Python dicts whose iteration order matters become association
lists updated in insertion order, attribute absence becomes `Option`, and
the one uncaught exception path (`KeyError` on a missing docstring section
in the explicit request/response mode) becomes `Option` at the level of
endpoint construction.
-/

namespace DrfAutodocs

/-! ## Python string primitives used by the module -/

/-- Whitespace characters removed by Python `str.strip()` (ASCII range). -/
def isPySpace (c : Char) : Bool :=
  c == ' ' || c == '\t' || c == '\n' || c == '\r' || c == '\x0b' || c == '\x0c'

/-- Python `str.strip()`: drop leading and trailing whitespace. -/
def pyStrip (s : String) : String :=
  ⟨((s.data.dropWhile isPySpace).reverse.dropWhile isPySpace).reverse⟩

/-- Tab replacement at the character-list level: every tab becomes two
spaces (the body of Python line.replace of a tab by two spaces). -/
def replaceTabChars : List Char → List Char
  | [] => []
  | c :: rest =>
    if c == '\t' then ' ' :: ' ' :: replaceTabChars rest
    else c :: replaceTabChars rest

/-- Python `line.replace('\t', '  ')`. -/
def pyReplaceTab (s : String) : String := ⟨replaceTabChars s.data⟩

/-- Python `str.splitlines()` restricted to the line terminators that occur in
docstrings (`\n`, `\r\n`, `\r`): no trailing empty line for a trailing
terminator, and the empty string yields no lines. -/
def splitlinesChars : List Char → List Char → List String
  | [], acc => if acc.isEmpty then [] else [⟨acc.reverse⟩]
  | '\r' :: '\n' :: rest, acc => ⟨acc.reverse⟩ :: splitlinesChars rest []
  | '\n' :: rest, acc => ⟨acc.reverse⟩ :: splitlinesChars rest []
  | '\r' :: rest, acc => ⟨acc.reverse⟩ :: splitlinesChars rest []
  | c :: rest, acc => splitlinesChars rest (c :: acc)

/-- Python `str.splitlines()`. -/
def pySplitlines (s : String) : List String := splitlinesChars s.data []

/-- Python `str.upper()` on the ASCII identifiers this module handles. -/
def pyToUpper (s : String) : String := ⟨s.data.map Char.toUpper⟩

/-- Python `str.lower()` on the ASCII identifiers this module handles. -/
def pyToLower (s : String) : String := ⟨s.data.map Char.toLower⟩

/-- Python `s.replace(a, '')` for a single-character pattern. -/
def pyRemoveChar (a : Char) (s : String) : String :=
  ⟨s.data.filter (fun c => c != a)⟩

/-- Python `s.replace(a, b)` for single characters. -/
def pyReplaceChar (a b : Char) (s : String) : String :=
  ⟨s.data.map (fun c => if c == a then b else c)⟩

/-- Partition at the first colon on the character list: text before the
first colon and text after it; `none` when no colon occurs. -/
def partitionColonChars : List Char → Option (List Char × List Char)
  | [] => none
  | ':' :: rest => some ([], rest)
  | c :: rest => (partitionColonChars rest).map (fun p => (c :: p.1, p.2))

/-- Python `line.partition(':')` reduced to the two components the module
uses: the text before the first colon and the text after it.  When the line
has no colon Python returns `(line, '', '')`, i.e. `(line, "")` here. -/
def pyPartitionColon (s : String) : String × String :=
  match partitionColonChars s.data with
  | some (before, after) => (⟨before⟩, ⟨after⟩)
  | none => (s, "")

/-- Letter class `[a-zA-Z]` of the header regex. -/
def isAsciiLetter (c : Char) : Bool :=
  ('A' ≤ c && c ≤ 'Z') || ('a' ≤ c && c ≤ 'z')

/-- Word-character class `[0-9A-Za-z_]` of the header regex. -/
def isWordChar (c : Char) : Bool :=
  ('0' ≤ c && c ≤ '9') || ('A' ≤ c && c ≤ 'Z') || ('a' ≤ c && c ≤ 'z') || c == '_'

/-- Matcher for the tail `[0-9A-Za-z_]*:` of the header regex: scan word
characters until a colon is found; any other character fails.  (The greedy
`*` with backtracking succeeds exactly when the character after the maximal
word-character run is a colon, which is what this scan decides, since `:` is
not a word character.) -/
def identColon : List Char → Bool
  | [] => false
  | c :: rest => if c == ':' then true else if isWordChar c then identColon rest else false

/-- Boolean form of the compiled header-regex match on a line:
the line starts with an ASCII letter whose following word-character run is
terminated by a colon. -/
def headerMatch (s : String) : Bool :=
  match s.data with
  | [] => false
  | c :: rest => isAsciiLetter c && identColon rest

/-! ## The docstring section parser (`_parse_docs_to_map`) -/

/-- Sections dictionary: association list in Python-dict insertion order. -/
abbrev Sections := List (String × String)

/-- Lookup modelling both the membership test and the subscript read of the
sections dict, as an `Option`-returning lookup. -/
def lookupSec (m : Sections) (k : String) : Option String :=
  (m.find? (fun p => p.1 == k)).map (fun p => p.2)

/-- Subscript assignment with Python-dict semantics: overwrite in place
when the key exists, append otherwise. -/
def setSec (m : Sections) (k v : String) : Sections :=
  if (m.find? (fun p => p.1 == k)).isSome then
    m.map (fun p => if p.1 == k then (p.1, v) else p)
  else m ++ [(k, v)]

/-- In-place append to the value of a key already present. -/
def appendSec (m : Sections) (k suf : String) : Sections :=
  m.map (fun p => if p.1 == k then (p.1, p.2 ++ suf) else p)

/-- The loop body of `_parse_docs_to_map`: on a header line, `partition(':')`
gives the new current section name and its lead text (stripped); any other
line is appended to the current section with tabs expanded to two spaces. -/
def parseLines : List String → String → Sections → Sections
  | [], _, sections => sections
  | line :: rest, cur, sections =>
    if headerMatch line then
      let parts := pyPartitionColon line
      parseLines rest parts.1 (setSec sections parts.1 (pyStrip parts.2))
    else
      parseLines rest cur (appendSec sections cur ("\n" ++ pyReplaceTab line))

/-- Embedding of `Endpoint._parse_docs_to_map`: split the docstring into lines and fold the
header/body loop starting from current section `''` and `sections = {'': ''}`. -/
def parseDocsToMap (doc : String) : Sections :=
  parseLines (pySplitlines doc) "" [("", "")]

/-! ## Serializer fields (`_get_serializer_fields`)

A serializer instance is modelled by the attributes the resolver reads:
whether `get_fields` exists, the ordered `get_fields()` items, and the
owning `Meta.model`'s relational attributes (name ↦ `related_model` name)
used by the `hasattr(serializer.Meta.model, key)` fallback.  A field is
modelled by the flags and attributes the resolver reads; `nested` is the
serializer the code recurses into when `isinstance(field, BaseSerializer)`
holds (`field.child` when the field has a `many` marker, the field itself
otherwise), present exactly when that isinstance test is true.
`qsModel` is `field.queryset.model.__name__` when both
`hasattr(field, 'queryset')` and `hasattr(field.queryset, 'model')` hold;
`childQsModel` is `field.child_relation.queryset.model.__name__`, read only
on the many-relation queryset branch. -/

mutual
inductive SField where
  | mk (readOnly required writeOnly : Bool)
      (typeName helpText : String)
      (hasMany isChoice isRelated isManyRelated : Bool)
      (choices : List String)
      (qsModel : Option String)
      (childQsModel : String)
      (nested : Option Serializer) : SField
inductive Serializer where
  | mk (hasGetFields : Bool)
      (fields : List (String × SField))
      (metaModel : List (String × String)) : Serializer
end

def SField.readOnly : SField → Bool
  | .mk ro _ _ _ _ _ _ _ _ _ _ _ _ => ro

def SField.requiredAttr : SField → Bool
  | .mk _ rq _ _ _ _ _ _ _ _ _ _ _ => rq

def SField.helpTextAttr : SField → String
  | .mk _ _ _ _ ht _ _ _ _ _ _ _ _ => ht

def SField.hasMany : SField → Bool
  | .mk _ _ _ _ _ many _ _ _ _ _ _ _ => many

def SField.isRelated : SField → Bool
  | .mk _ _ _ _ _ _ _ r _ _ _ _ _ => r

def SField.isManyRelated : SField → Bool
  | .mk _ _ _ _ _ _ _ _ mr _ _ _ _ => mr

def SField.qsModel : SField → Option String
  | .mk _ _ _ _ _ _ _ _ _ _ qs _ _ => qs

def SField.childQsModel : SField → String
  | .mk _ _ _ _ _ _ _ _ _ _ _ cqs _ => cqs

def SField.nested : SField → Option Serializer
  | .mk _ _ _ _ _ _ _ _ _ _ _ _ n => n

/-- One entry of the `field_data` dict built per field; `choices` is present
only when the `ChoiceField` branch fires. -/
inductive FieldData where
  | mk (name : String) (readOnly : Bool) (typeName : String)
      (subFields : Option (List FieldData)) (required toManyRelation : Bool)
      (helpText : String) (writeOnly : Bool)
      (choices : Option (List String)) : FieldData

def FieldData.name : FieldData → String
  | .mk n _ _ _ _ _ _ _ _ => n

def FieldData.read_only : FieldData → Bool
  | .mk _ ro _ _ _ _ _ _ _ => ro

def FieldData.typeName : FieldData → String
  | .mk _ _ ty _ _ _ _ _ _ => ty

def FieldData.sub_fields : FieldData → Option (List FieldData)
  | .mk _ _ _ sf _ _ _ _ _ => sf

def FieldData.required : FieldData → Bool
  | .mk _ _ _ _ rq _ _ _ _ => rq

def FieldData.to_many_relation : FieldData → Bool
  | .mk _ _ _ _ _ tm _ _ _ => tm

def FieldData.help_text : FieldData → String
  | .mk _ _ _ _ _ _ ht _ _ => ht

def FieldData.write_only : FieldData → Bool
  | .mk _ _ _ _ _ _ _ wo _ => wo

def FieldData.choices : FieldData → Option (List String)
  | .mk _ _ _ _ _ _ _ _ ch => ch

/-- Format helper for the singular relational sentence the resolver appends
(newline, Requires/renders pk(id) of the model name as integer). -/
def fmtSingleRel (ht m : String) : String :=
  (if ht != "" then ht else "") ++ "\nRequires/renders pk(id) of " ++ m ++ " as integer"

/-- Format helper for the list relational sentence the resolver appends
(newline, Requires/renders list of pk identifiers of the model name). -/
def fmtListRel (ht m : String) : String :=
  (if ht != "" then ht else "") ++ "\nRequires/renders list of pk\x27s(id\x27s) of " ++ m ++ " objects."

/-- The relational help-text rewrite of `_get_serializer_fields`:
`if isinstance(field, RelatedField)` uses the queryset's model when present,
else falls back to `Meta.model`'s attribute; `elif isinstance(field,
ManyRelatedField)` uses the list wording (naming
`field.child_relation.queryset.model`) on the queryset branch but the
singular wording on the `Meta.model` fallback branch. -/
def relationalHelpText (meta : List (String × String)) (key : String)
    (isRel isMRel : Bool) (ht : String) (qs : Option String) (cqs : String) : String :=
  if isRel then
    match qs with
    | some m => fmtSingleRel ht m
    | none =>
      match (meta.find? (fun p => p.1 == key)).map (fun p => p.2) with
      | some m => fmtSingleRel ht m
      | none => ht
  else if isMRel then
    match qs with
    | some _ => fmtListRel ht cqs
    | none =>
      match (meta.find? (fun p => p.1 == key)).map (fun p => p.2) with
      | some m => fmtSingleRel ht m
      | none => ht
  else ht

mutual
/-- Embedding of `Endpoint._get_serializer_fields`: walk `serializer.get_fields()` when it
exists and build one `FieldData` per field, in order. -/
def resolveSerializer : Serializer → List FieldData
  | .mk hasGF fields meta => if hasGF then resolveFieldList meta fields else []

def resolveFieldList (meta : List (String × String)) :
    List (String × SField) → List FieldData
  | [] => []
  | (k, f) :: rest => resolveField meta k f :: resolveFieldList meta rest

/-- The per-field body of the `get_fields().items()` loop. -/
def resolveField (meta : List (String × String)) (key : String) :
    SField → FieldData
  | .mk ro rq wo ty ht many isCh isRel isMRel chs qs cqs nested =>
    let subFields : Option (List FieldData) :=
      if many then
        match nested with
        | some s => some (resolveSerializer s)
        | none => none
      else
        match nested with
        | some s => some (resolveSerializer s)
        | none => none
    let choices : Option (List String) :=
      if isCh && !isRel && !isMRel then some chs else none
    let helpText := relationalHelpText meta key isRel isMRel ht qs cqs
    .mk key ro ty subFields rq many helpText wo choices
end

/-! ## Route and view models

The route (`pattern`) is modelled by its declared `name` and the regex
string `_get_complete_path` extracts (`none` when the whole try/except
chain fails, giving `regex = ""`).  The view is modelled by the attributes
the constructor reads; docstrings are taken after
`get_view_description`'s `dedent(smart_text(...))`, so `description` and
the `extraActions` values are the already-processed description strings. -/

structure PatternModel where
  pname : String
  regex : Option String

structure ViewModel where
  /-- `view.__name__`. -/
  viewName : String
  /-- `get_view_description(view.cls)`. -/
  description : String
  /-- `view.actions` when `hasattr(view, 'actions')`: HTTP method ↦ action
  name, in dict order (values are strings in the viewset routing layer). -/
  actions : Option (List (String × String))
  /-- `view.cls.get_extra_actions()` as name ↦ `get_view_description(method)`. -/
  extraActions : List (String × String)
  /-- The `m in view.cls.http_method_names with hasattr(view.cls, m)` list,
  lowercase, in `http_method_names` order. -/
  handlers : List String
  /-- `hasattr(view.cls, 'allowed_methods')`. -/
  hasAllowedMethods : Bool
  /-- `hasattr(view.cls, 'req_res_autodocs')`. -/
  hasReqRes : Bool
  /-- `view.cls.serializer_class()` when declared and not `None`. -/
  serializer : Option Serializer
  /-- `view.cls.response_serializer_class()` when declared. -/
  responseSerializer : Option Serializer

/-- Embedding of `Endpoint._get_allowed_methods`: uppercase the actions keys when the view
has an `actions` attribute, else the implemented standard HTTP method names
when `allowed_methods` exists, else no methods. -/
def allowedMethods (v : ViewModel) : List String :=
  match v.actions with
  | some am => am.map (fun p => pyToUpper p.1)
  | none =>
    if v.hasAllowedMethods then v.handlers.map (fun m => pyToUpper m) else []

/-- The dynamic-route check at the top of `_get_doc`: when `actions` is
truthy with exactly one entry, the first extra action whose `__name__`
equals that entry's value becomes `extra_method` (with its description). -/
def extraMethodOf (v : ViewModel) : Option (String × String) :=
  match v.actions with
  | some am =>
    if am.length == 1 then
      match am.head? with
      | some kv => v.extraActions.find? (fun p => p.1 == kv.2)
      | none => none
    else none
  | none => none

/-- The description `_get_doc` parses: the extra method's when one was
found, else the view class's.  (`_parse_req_res_doc` parses the same
description: `get_view_description(cls, 'req_res_autodocs')` ignores its
`attr` argument and reads `__doc__`.) -/
def descriptionOf (v : ViewModel) : String :=
  match extraMethodOf v with
  | some p => p.2
  | none => v.description

/-- The sections map both docstring modes look up. -/
def docSections (v : ViewModel) : Sections :=
  parseDocsToMap (descriptionOf v)

/-- The `actions_map` iterated by `_get_doc`'s loop, as label ↦ lookup-key
entries: for a truthy `actions` dict the values are action-name strings (the
lookup key); otherwise (`actions` absent or empty, hence falsy) the fallback
comprehension over implemented handlers is used, whose values are bound
methods, so the lookup key falls back to the uppercased label. -/
def docActionsMap (v : ViewModel) : List (String × Option String) :=
  match v.actions with
  | some am =>
    if am.isEmpty then v.handlers.map (fun m => (pyToUpper m, none))
    else am.map (fun p => (p.1, some p.2))
  | none => v.handlers.map (fun m => (pyToUpper m, none))

/-- The method-labelled sections `_get_doc` assembles: one
`(method_name.upper(), sections[key].strip())` pair per `actions_map` entry
whose key is present in the parsed sections. -/
def getDocPieces (v : ViewModel) : List (String × String) :=
  (docActionsMap v).filterMap (fun e =>
    (lookupSec (docSections v) (e.2.getD e.1)).map
      (fun body => (pyToUpper e.1, pyStrip body)))

/-- Embedding of `Endpoint._get_doc`: concatenate the assembled sections, falling back to
the whole description when nothing was assembled. -/
def getDoc (v : ViewModel) : String :=
  let doc := (getDocPieces v).foldl
    (fun acc p => acc ++ p.1 ++ "\n" ++ p.2 ++ "\n\n") ""
  if doc == "" then descriptionOf v else doc

/-- Python set equality of the methods list with the two-element set of GET
and OPTIONS. -/
def setEqGetOptions (ms : List String) : Bool :=
  ms.all (fun m => m == "GET" || m == "OPTIONS")
    && ms.contains "GET" && ms.contains "OPTIONS"

/-- The accumulation loop of `_parse_req_res_doc`:
`text += method.upper() + '\n' + sections[method.lower() + '_req']`, where a
missing section is a `KeyError`, modelled as `none`. -/
def reqResText (sections : Sections) : List String → Option String
  | [] => some ""
  | m :: ms =>
    match lookupSec sections (pyToLower m ++ "_req") with
    | none => none
    | some body =>
      match reqResText sections ms with
      | none => none
      | some rest => some (pyToUpper m ++ "\n" ++ body ++ rest)

/-- Embedding of `Endpoint._parse_req_res_doc`: build `input_fields_text` unless the
method set is exactly `{GET, OPTIONS}`, in which case build
`output_fields_text`; both loops read `sections[method.lower() + '_req']`.
Result `(input_fields_text, output_fields_text)`, `none` on `KeyError`. -/
def parseReqResDoc (v : ViewModel) : Option (Option String × Option String) :=
  let sections := docSections v
  let methods := allowedMethods v
  if !(setEqGetOptions methods) then
    (reqResText sections methods).map (fun t => (some t, none))
  else
    (reqResText sections methods).map (fun t => (none, some t))

/-! ## Path and name -/

/-- Model of `django.contrib.admindocs.views.simplify_regex` restricted to
patterns containing no regex groups (for which the named/unnamed group
replacement passes are the identity): strip `^`, `$` and `?`, then ensure a
leading slash. -/
def simplify_regex (pattern : String) : String :=
  let p := pyRemoveChar '?' (pyRemoveChar '$' (pyRemoveChar '^' pattern))
  match p.data with
  | '/' :: _ => p
  | _ => "/" ++ p

/-- Python `s.rstrip('/')`. -/
def pyRstripSlash (s : String) : String :=
  ⟨(s.data.reverse.dropWhile (fun c => c == '/')).reverse⟩

/-- Python `s.lstrip('/')`. -/
def pyLstripSlash (s : String) : String :=
  ⟨s.data.dropWhile (fun c => c == '/')⟩

/-- Embedding of `Endpoint._get_complete_path`:
`'%s/%s' % (prefix.rstrip('/'), simplify_regex(regex).lstrip('/'))`, with an
unextractable pattern giving `regex = ''`. -/
def getCompletePath (p : PatternModel) (pfx : String) : String :=
  let regex := pyLstripSlash (simplify_regex (p.regex.getD ""))
  pyRstripSlash pfx ++ "/" ++ regex

/-- Uppercase ASCII test, the Python isupper check on the identifiers in
scope. -/
def isAsciiUpper (c : Char) : Bool := 'A' ≤ c && c ≤ 'Z'

/-- Python `str.title()` on ASCII text: a letter is uppercased when the
previous character is not a letter and lowercased otherwise. -/
def titleChars : Bool → List Char → List Char
  | _, [] => []
  | prev, c :: rest =>
    if isAsciiLetter c then
      (if prev then c.toLower else c.toUpper) :: titleChars true rest
    else c :: titleChars false rest

/-- Python `str.title()`. -/
def pyTitle (s : String) : String := ⟨titleChars false s.data⟩

/-- Embedding of `Endpoint._get_endpoint_name`: when the settings switch is set to view,
space the view class name at uppercase letters other than its first
character; otherwise use the route name; in both cases replace `-` and `_`
with spaces and title-case. -/
def getEndpointName (namesFromView : Bool) (viewName patternName : String) : String :=
  if namesFromView then
    let first := viewName.data.head?
    let spaced : String :=
      ⟨(viewName.data.map (fun c =>
          if isAsciiUpper c && !(first == some c) then [' ', c] else [c])).flatten⟩
    pyTitle (pyReplaceChar '_' ' ' (pyReplaceChar '-' ' ' spaced))
  else
    pyTitle (pyReplaceChar '_' ' ' (pyReplaceChar '-' ' ' patternName))

/-! ## The constructor -/

/-- The fields of a constructed `Endpoint` the claims are about.  Optional
attributes that the constructor sets only on some paths are `Option`s. -/
structure Endpoint where
  id : Nat
  methods : List String
  completePath : String
  name : String
  docstring : String
  inputFields : Option (List FieldData)
  outputFields : Option (List FieldData)
  inputFieldsText : Option String
  outputFieldsText : Option String

/-- Embedding of `Endpoint.__init__` for one route, given the counter value at entry:
resolve methods, path, name and docstring, then either the explicit
request/response texts (where a missing `<method>_req` section is an
uncaught `KeyError`, modelled as `none`) or the serializer field trees
(single serializer as input unless the method set is exactly
`{GET, OPTIONS}`, response serializer always as output). -/
def buildEndpoint (counter : Nat) (namesFromView : Bool)
    (p : PatternModel) (v : ViewModel) (pfx : String) : Option Endpoint :=
  let methods := allowedMethods v
  let path := getCompletePath p pfx
  let name := getEndpointName namesFromView v.viewName p.pname
  let doc := getDoc v
  if v.hasReqRes then
    match parseReqResDoc v with
    | none => none
    | some texts =>
      some { id := counter, methods := methods, completePath := path,
             name := name, docstring := doc,
             inputFields := none, outputFields := none,
             inputFieldsText := texts.1, outputFieldsText := texts.2 }
  else
    let inF : Option (List FieldData) :=
      match v.serializer with
      | some s => if !(setEqGetOptions methods) then some (resolveSerializer s) else none
      | none => none
    let outF0 : Option (List FieldData) :=
      match v.serializer with
      | some s => if setEqGetOptions methods then some (resolveSerializer s) else none
      | none => none
    let outF : Option (List FieldData) :=
      match v.responseSerializer with
      | some rs => some (resolveSerializer rs)
      | none => outF0
    some { id := counter, methods := methods, completePath := path,
           name := name, docstring := doc,
           inputFields := inF, outputFields := outF,
           inputFieldsText := none, outputFieldsText := none }

/-- One route's construction inputs, for sequences of constructions. -/
structure BuildInput where
  namesFromView : Bool
  pat : PatternModel
  view : ViewModel
  pfx : String

/-- A sequence of constructions sharing the class counter: each construction
reads the counter for its `id` and increments it (the increment happens
before any failure can occur, so failed constructions consume an id too).
Each list entry is the id assigned to that construction paired with its
outcome. -/
def buildSequence : Nat → List BuildInput → List (Nat × Option Endpoint)
  | _, [] => []
  | c, i :: rest =>
    (c, buildEndpoint c i.namesFromView i.pat i.view i.pfx)
      :: buildSequence (c + 1) rest

/-! ## Auxiliary predicates and concrete instances used in the statements -/

/-- Substring test at the character-list level. -/
def containsChars (pat : List Char) : List Char → Bool
  | [] => pat.isEmpty
  | c :: rest => pat.isPrefixOf (c :: rest) || containsChars pat rest

/-- Python `pat in s`. -/
def strContains (s pat : String) : Bool := containsChars pat.data s.data

/-- A view in explicit request/response mode whose docstring declares a
`get_req` section but no `post_req` section while `POST` is an allowed
method. -/
def vReqResMissing : ViewModel :=
  ⟨"UserView", "get_req: the query\n  more", none, [], ["get", "post"],
   true, true, none, none⟩

/-- A plain view: two handlers, default docstring mode, method sections for
`GET` only, no serializer. -/
def vTwoMethods : ViewModel :=
  ⟨"UserView", "Intro text\nGET:\n  Lists users\nFOO:\n  ignored", none, [],
   ["get", "post"], true, false, none, none⟩

/-- The route of the spec's worked example: named `user-list`, pattern
`^users/$`, methods GET and POST. -/
def vUserList : ViewModel :=
  ⟨"UserListView", "docs", none, [], ["get", "post"], true, false, none, none⟩

/-- A one-field serializer used as a concrete witness input. -/
def serSimple : Serializer :=
  .mk true [("city", .mk false true false "CharField" "" false false false false [] none "" none)] []

/-- A second one-field serializer, used as a distinct response serializer. -/
def serResp : Serializer :=
  .mk true [("total", .mk true false false "IntegerField" "" false false false false [] none "" none)] []

/-- A view with a single declared serializer and writable methods. -/
def vWithSerializer : ViewModel :=
  ⟨"UserView", "docs", none, [], ["get", "post"], true, false, some serSimple, none⟩

/-- The route of the spec's worked example. -/
def patUserList : PatternModel := ⟨"user-list", some "^users/$"⟩

/-- A construction input used for counter sequences. -/
def biX : BuildInput := ⟨false, ⟨"x", none⟩, vUserList, ""⟩

/-- A `ManyRelatedField` (to-many) without a resolvable queryset, whose
owning serializer's `Meta.model` has the same-named relational attribute. -/
def fManyTags : SField :=
  .mk false true false "ManyRelatedField" "" true false false true [] none "" none

/-- A `ManyRelatedField` (to-many) with a resolvable queryset whose model,
like its `child_relation`'s queryset model, is `Tag`. -/
def fManyTagsQs : SField :=
  .mk false true false "ManyRelatedField" "" true false false true [] (some "Tag") "Tag" none

/-- A single-valued nested serializer field (`isinstance(field,
BaseSerializer)` without a `many` marker). -/
def fNestedSingle : SField :=
  .mk false true false "AddressSerializer" "" false false false false [] none "" (some serSimple)

/-! ## Helper lemmas -/

theorem string_data_append (a b : String) : (a ++ b).data = a.data ++ b.data := by
  cases a; cases b; rfl

theorem replaceTabChars_no_tab (l : List Char) : '\t' ∉ replaceTabChars l := by
  induction l with
  | nil => simp [replaceTabChars]
  | cons c rest ih =>
    intro h
    rw [replaceTabChars] at h
    by_cases hc : c = '\t'
    · subst hc
      simp only [beq_self_eq_true, if_true, List.mem_cons] at h
      rcases h with h | h | h
      · exact absurd h (by decide)
      · exact absurd h (by decide)
      · exact ih h
    · have hc' : (c == '\t') = false := beq_eq_false_iff_ne.mpr hc
      simp only [hc', Bool.false_eq_true, if_false, List.mem_cons] at h
      rcases h with h | h
      · exact hc h.symm
      · exact ih h

theorem mem_pyStrip {c : Char} {s : String} (h : c ∈ (pyStrip s).data) :
    c ∈ s.data := by
  unfold pyStrip at h
  simp only [List.mem_reverse] at h
  have h1 := (List.dropWhile_sublist (l := (s.data.dropWhile isPySpace).reverse)
    (p := isPySpace)).subset h
  simp only [List.mem_reverse] at h1
  exact (List.dropWhile_sublist (l := s.data) (p := isPySpace)).subset h1

theorem setSec_forall {P : String → Prop} {m : Sections} {k v : String}
    (hm : ∀ p ∈ m, P p.2) (hv : P v) : ∀ p ∈ setSec m k v, P p.2 := by
  intro p hp
  unfold setSec at hp
  split at hp
  · rcases List.mem_map.mp hp with ⟨q, hq, hpe⟩
    by_cases hqk : (q.1 == k) = true
    · rw [if_pos hqk] at hpe
      rw [← hpe]
      exact hv
    · rw [if_neg hqk] at hpe
      rw [← hpe]
      exact hm q hq
  · rcases List.mem_append.mp hp with h | h
    · exact hm p h
    · have : p = (k, v) := by simpa using h
      rw [this]
      exact hv

theorem appendSec_noTab {m : Sections} {k suf : String}
    (hm : ∀ p ∈ m, '\t' ∉ p.2.data) (hs : '\t' ∉ suf.data) :
    ∀ p ∈ appendSec m k suf, '\t' ∉ p.2.data := by
  intro p hp
  unfold appendSec at hp
  rcases List.mem_map.mp hp with ⟨q, hq, hpe⟩
  by_cases hqk : (q.1 == k) = true
  · rw [if_pos hqk] at hpe
    rw [← hpe]
    intro hmem
    rw [string_data_append] at hmem
    rcases List.mem_append.mp hmem with h | h
    · exact hm q hq h
    · exact hs h
  · rw [if_neg hqk] at hpe
    rw [← hpe]
    exact hm q hq

theorem parseLines_noTab (lines : List String) :
    ∀ (cur : String) (sections : Sections),
      (∀ p ∈ sections, '\t' ∉ p.2.data) →
      (∀ line ∈ lines, headerMatch line = true → '\t' ∉ (pyPartitionColon line).2.data) →
      ∀ p ∈ parseLines lines cur sections, '\t' ∉ p.2.data := by
  induction lines with
  | nil =>
    intro cur sections hsec _ p hp
    rw [parseLines] at hp
    exact hsec p hp
  | cons line rest ih =>
    intro cur sections hsec hlines p hp
    rw [parseLines] at hp
    by_cases hh : headerMatch line = true
    · rw [if_pos hh] at hp
      refine ih _ _ ?_ (fun l hl => hlines l (List.mem_cons_of_mem _ hl)) p hp
      refine setSec_forall (P := fun x => '\t' ∉ x.data) hsec ?_
      intro hmem
      exact hlines line (List.mem_cons_self _ _) hh (mem_pyStrip hmem)
    · rw [if_neg hh] at hp
      refine ih _ _ ?_ (fun l hl => hlines l (List.mem_cons_of_mem _ hl)) p hp
      refine appendSec_noTab hsec ?_
      intro hmem
      rw [string_data_append] at hmem
      rcases List.mem_append.mp hmem with h | h
      · exact absurd h (by decide)
      · exact replaceTabChars_no_tab _ h

theorem identColon_iff (l : List Char) :
    identColon l = true ↔
      ∃ ident rest, l = ident ++ ':' :: rest ∧ ∀ x ∈ ident, isWordChar x = true := by
  induction l with
  | nil =>
    constructor
    · intro h
      simp [identColon] at h
    · rintro ⟨ident, rest, h, -⟩
      exact absurd h (by cases ident <;> simp)
  | cons c cs ih =>
    rw [identColon]
    by_cases hc : c = ':'
    · subst hc
      simp only [beq_self_eq_true, if_true]
      constructor
      · intro _
        exact ⟨[], cs, rfl, fun x hx => absurd hx (List.not_mem_nil x)⟩
      · intro _
        trivial
    · have hc' : (c == ':') = false := beq_eq_false_iff_ne.mpr hc
      simp only [hc', Bool.false_eq_true, if_false]
      by_cases hw : isWordChar c = true
      · rw [if_pos hw]
        constructor
        · intro h
          rcases ih.mp h with ⟨ident, rest, heq, hall⟩
          refine ⟨c :: ident, rest, by rw [heq]; rfl, ?_⟩
          intro x hx
          rcases List.mem_cons.mp hx with rfl | hx
          · exact hw
          · exact hall x hx
        · rintro ⟨ident, rest, heq, hall⟩
          cases ident with
          | nil =>
            injection heq with h1 _
            exact absurd h1 hc
          | cons a ident' =>
            injection heq with h1 h2
            subst h1
            exact ih.mpr ⟨ident', rest, h2, fun x hx => hall x (List.mem_cons_of_mem _ hx)⟩
      · rw [if_neg hw]
        constructor
        · intro h
          cases h
        · rintro ⟨ident, rest, heq, hall⟩
          cases ident with
          | nil =>
            injection heq with h1 _
            exact absurd h1 hc
          | cons a ident' =>
            injection heq with h1 _
            subst h1
            exact absurd (hall c (List.mem_cons_self _ _)) hw

theorem filterMap_length_filter {α β : Type} (f : α → Option β) (l : List α) :
    (l.filterMap f).length = (l.filter (fun a => (f a).isSome)).length := by
  induction l with
  | nil => rfl
  | cons a l ih =>
    cases h : f a with
    | none => simp [List.filterMap_cons, List.filter_cons, h, ih]
    | some b => simp [List.filterMap_cons, List.filter_cons, h, ih]

theorem reqResText_missing (sections : Sections) (ms : List String) (m : String)
    (hm : m ∈ ms) (h : lookupSec sections (pyToLower m ++ "_req") = none) :
    reqResText sections ms = none := by
  induction ms with
  | nil => cases hm
  | cons a ms ih =>
    rcases List.mem_cons.mp hm with rfl | hmem
    · rw [reqResText, h]
    · rw [reqResText]
      cases hl : lookupSec sections (pyToLower a ++ "_req") with
      | none => rfl
      | some body => rw [ih hmem]

/-! ## Claim theorems -/

/-- Claim C2: a line is treated as a section header iff it starts with an
ASCII letter, continues with zero or more alphanumeric-or-underscore
characters, and is immediately followed by a colon; in particular `Get:` is a
header, `2xx:` is not, and `note: see below` is a header whose section name
is `note` (with body `see below`). -/
theorem C2_header_detection :
    (∀ s : String, headerMatch s = true ↔
      ∃ (c : Char) (ident rest : List Char),
        s.data = c :: (ident ++ ':' :: rest) ∧ isAsciiLetter c = true ∧
          ∀ x ∈ ident, isWordChar x = true) ∧
    headerMatch "Get:" = true ∧
    headerMatch "2xx:" = false ∧
    headerMatch "note: see below" = true ∧
    lookupSec (parseDocsToMap "note: see below") "note" = some "see below" := by
  refine ⟨?_, by decide, by decide, by decide, by decide⟩
  intro s
  obtain ⟨l⟩ := s
  cases l with
  | nil =>
    constructor
    · intro h
      cases h
    · rintro ⟨c, ident, rest, heq, -, -⟩
      exact List.noConfusion heq
  | cons c cs =>
    have hm : headerMatch ⟨c :: cs⟩ = (isAsciiLetter c && identColon cs) := rfl
    rw [hm]
    constructor
    · intro h
      rcases Bool.and_eq_true_iff.mp h with ⟨h1, h2⟩
      rcases (identColon_iff cs).mp h2 with ⟨ident, rest, heq, hall⟩
      refine ⟨c, ident, rest, ?_, h1, hall⟩
      show c :: cs = c :: (ident ++ ':' :: rest)
      rw [heq]
    · rintro ⟨c', ident, rest, heq, hl, hall⟩
      have heq' : c :: cs = c' :: (ident ++ ':' :: rest) := heq
      injection heq' with h1 h2
      subst h1
      exact Bool.and_eq_true_iff.mpr ⟨hl, (identColon_iff cs).mpr ⟨ident, rest, h2, hall⟩⟩

/-- Claim C3 as stated is false: parsing
`"GET:\n  Lists users\nPOST:\n  Creates a user"` does not map `GET` to
`Lists users` — the parser keeps the separating newline and the body line's
leading indentation, and strips nothing. -/
theorem C3_counterexample :
    lookupSec (parseDocsToMap "GET:\n  Lists users\nPOST:\n  Creates a user") "GET" ≠
      some "Lists users" := by decide

/-- Claim C3, amended: parsing
`"GET:\n  Lists users\nPOST:\n  Creates a user"` yields exactly the mapping
with keys `''`, `GET`, `POST` in that insertion order, header keys cased as
written and the unnamed leading text under the empty-string key, but each
method's body is `'\n  ...'` — the newline plus the untrimmed body line
(trimming happens later, in `_get_doc`). -/
theorem C3_parse_example :
    parseDocsToMap "GET:\n  Lists users\nPOST:\n  Creates a user" =
      [("", ""), ("GET", "\n  Lists users"), ("POST", "\n  Creates a user")] := by decide

/-- Claim C6 as stated is false: a tab in the section body text that follows
the colon on the header line itself survives into the parser's output
unreplaced (only surrounding whitespace is stripped). -/
theorem C6_counterexample :
    lookupSec (parseDocsToMap "a:x\ty") "a" = some "x\ty" ∧
      '\t' ∈ ("x\ty").data ∧
      lookupSec (parseDocsToMap "a:x\ty") "a" ≠ some "x  y" := by decide

/-- Claim C6, amended: tabs in the non-header lines of a section body are
each replaced by exactly two spaces; only the header line's own post-colon
text can carry a tab into the output.  Hence when no header line has a tab
after its colon, every section value in the parser's output is tab-free; and
the per-line replacement turns each tab into exactly two spaces. -/
theorem C6_tab_replacement (doc : String)
    (h : ∀ line ∈ pySplitlines doc, headerMatch line = true →
      '\t' ∉ (pyPartitionColon line).2.data) :
    (∀ p ∈ parseDocsToMap doc, '\t' ∉ p.2.data) ∧
      ∀ l : List Char, replaceTabChars l =
        (l.map (fun c => if c == '\t' then [' ', ' '] else [c])).flatten := by
  constructor
  · refine parseLines_noTab (pySplitlines doc) "" [("", "")] ?_ h
    intro p hp
    have : p = ("", "") := by simpa using hp
    rw [this]
    simp
  · intro l
    induction l with
    | nil => rfl
    | cons c rest ih =>
      rw [replaceTabChars, ih]
      by_cases hc : c = '\t'
      · subst hc
        simp
      · simp [hc]

/-- Witness for `C6_tab_replacement` at a concrete docstring whose header
line has no tab after its colon. -/
theorem C6_tab_replacement_witness :
    (∀ p ∈ parseDocsToMap "a:\n x\ty", '\t' ∉ p.2.data) ∧
      ∀ l : List Char, replaceTabChars l =
        (l.map (fun c => if c == '\t' then [' ', ' '] else [c])).flatten :=
  C6_tab_replacement "a:\n x\ty" (by decide)

/-- Claim C1: in the default docstring mode a declared method or action with
no matching docstring section is silently skipped — construction succeeds
and the assembled pieces are exactly those entries whose section exists —
whereas in the explicit request/response mode (`req_res_autodocs` declared)
a declared method whose `<method>_req` section is absent makes the
`KeyError` propagate out of the constructor (construction yields no
endpoint). -/
theorem C1_missing_section_modes (c : Nat) (nv : Bool) (p : PatternModel)
    (v : ViewModel) (pfx : String) :
    (v.hasReqRes = false → (buildEndpoint c nv p v pfx).isSome = true) ∧
    (v.hasReqRes = true →
      (∃ m ∈ allowedMethods v,
        lookupSec (docSections v) (pyToLower m ++ "_req") = none) →
      buildEndpoint c nv p v pfx = none) ∧
    (getDocPieces v).length =
      ((docActionsMap v).filter
        (fun e => (lookupSec (docSections v) (e.2.getD e.1)).isSome)).length := by
  refine ⟨?_, ?_, ?_⟩
  · intro h
    simp [buildEndpoint, h]
  · rintro h ⟨m, hm, hl⟩
    have hr : reqResText (docSections v) (allowedMethods v) = none :=
      reqResText_missing _ _ m hm hl
    simp [buildEndpoint, h, parseReqResDoc, hr, ite_self]
  · rw [getDocPieces, filterMap_length_filter]
    congr 1
    apply List.filter_congr
    intro e _
    cases lookupSec (docSections v) (e.2.getD e.1) <;> rfl

/-- Witness for `C1_missing_section_modes`: a view in explicit mode whose
docstring lacks `post_req` fails construction, while a default-mode view
with an unmatched handler constructs fine. -/
theorem C1_missing_section_modes_witness :
    buildEndpoint 0 false ⟨"x", none⟩ vReqResMissing "" = none ∧
      (buildEndpoint 0 false ⟨"x", none⟩ vTwoMethods "").isSome = true :=
  ⟨(C1_missing_section_modes 0 false ⟨"x", none⟩ vReqResMissing "").2.1 rfl
      ⟨"POST", by decide, by decide⟩,
    (C1_missing_section_modes 0 false ⟨"x", none⟩ vTwoMethods "").1 rfl⟩

/-- Claim C4: for a route whose view declares its allowed HTTP methods (a
real view always exposes `allowed_methods`, and a routed viewset has a
nonempty actions map), the docstring pieces assembled at construction number
at most the number of allowed methods, and every assembled piece's body is
the corresponding parsed section with surrounding whitespace trimmed. -/
theorem C4_assembled_sections (v : ViewModel)
    (hA : v.hasAllowedMethods = true) (hNE : v.actions ≠ some []) :
    (getDocPieces v).length ≤ (allowedMethods v).length ∧
      ∀ piece ∈ getDocPieces v, ∃ key body,
        lookupSec (docSections v) key = some body ∧ piece.2 = pyStrip body := by
  constructor
  · have hlen : (docActionsMap v).length = (allowedMethods v).length := by
      rw [docActionsMap, allowedMethods]
      rcases hact : v.actions with _ | am
      · rw [if_pos hA]
        simp
      · cases am with
        | nil => exact absurd hact hNE
        | cons a am' => simp
    calc (getDocPieces v).length ≤ (docActionsMap v).length := by
          rw [getDocPieces]
          exact List.length_filterMap_le _ _
      _ = _ := hlen
  · intro piece hp
    rw [getDocPieces] at hp
    rcases List.mem_filterMap.mp hp with ⟨e, _, hfe⟩
    cases hlk : lookupSec (docSections v) (e.2.getD e.1) with
    | none =>
      rw [hlk] at hfe
      cases hfe
    | some body =>
      rw [hlk] at hfe
      refine ⟨e.2.getD e.1, body, hlk, ?_⟩
      have h2 : (pyToUpper e.1, pyStrip body) = piece := Option.some.inj (by simpa using hfe)
      rw [← h2]

/-- Witness for `C4_assembled_sections` at a concrete two-method view. -/
theorem C4_assembled_sections_witness :
    (getDocPieces vTwoMethods).length ≤ (allowedMethods vTwoMethods).length ∧
      ∀ piece ∈ getDocPieces vTwoMethods, ∃ key body,
        lookupSec (docSections vTwoMethods) key = some body ∧ piece.2 = pyStrip body :=
  C4_assembled_sections vTwoMethods rfl (by decide)

/-- Claim C5: outside the explicit request/response mode, a declared single
serializer's resolved fields are recorded as `input_fields` unless the
allowed-method set is exactly `{GET, OPTIONS}`, in which case they are
recorded as `output_fields` (when no separate response serializer is
declared); a declared response serializer's resolved fields are always
recorded as `output_fields` regardless of the method set. -/
theorem C5_serializer_fields (c : Nat) (nv : Bool) (p : PatternModel)
    (v : ViewModel) (pfx : String) (s : Serializer)
    (hR : v.hasReqRes = false) (hS : v.serializer = some s) :
    (setEqGetOptions (allowedMethods v) = false →
      (buildEndpoint c nv p v pfx).map Endpoint.inputFields =
        some (some (resolveSerializer s))) ∧
    (setEqGetOptions (allowedMethods v) = true → v.responseSerializer = none →
      (buildEndpoint c nv p v pfx).map Endpoint.outputFields =
        some (some (resolveSerializer s))) ∧
    (∀ rs, v.responseSerializer = some rs →
      (buildEndpoint c nv p v pfx).map Endpoint.outputFields =
        some (some (resolveSerializer rs))) := by
  refine ⟨?_, ?_, ?_⟩
  · intro h
    simp [buildEndpoint, hR, hS, h]
  · intro h hrs
    simp [buildEndpoint, hR, hS, h, hrs]
  · intro rs hrs
    simp [buildEndpoint, hR, hS, hrs]

/-- Witness for `C5_serializer_fields`: a writable view records its single
serializer's fields as input fields. -/
theorem C5_serializer_fields_witness :
    (buildEndpoint 0 false ⟨"x", none⟩ vWithSerializer "").map Endpoint.inputFields =
      some (some (resolveSerializer serSimple)) :=
  (C5_serializer_fields 0 false ⟨"x", none⟩ vWithSerializer "" serSimple rfl rfl).1
    (by decide)

/-- Claim C7 as stated is false: for the route named `user-list` with
pattern `^users/$` and prefix `/api`, the constructed complete path is not
`api/users/` — only trailing slashes are stripped from the prefix, so its
leading slash survives. -/
theorem C7_counterexample :
    (buildEndpoint 0 false patUserList vUserList "/api").map Endpoint.completePath ≠
      some "api/users/" := by decide

/-- Claim C7, amended: for a route named `user-list` with allowed methods
GET and POST, prefix `/api` and pattern `^users/$`, and the view-name-based
naming switch off, the constructed endpoint has complete path `/api/users/`
(keeping the prefix's leading slash) and display name `User List`. -/
theorem C7_path_and_name :
    (buildEndpoint 0 false patUserList vUserList "/api").map
        (fun e => (e.completePath, e.name, e.methods)) =
      some ("/api/users/", "User List", ["GET", "POST"]) := by decide

/-- Claim C8 as stated is false: a to-many relational field
(`ManyRelatedField`) whose target collection is resolved through the
`Meta.model` fallback (no resolvable queryset of its own) gets the singular
`pk(id) ... as integer` wording, not the `list of pk's` wording, and its
help text never mentions `list`. -/
theorem C8_counterexample :
    (resolveField [("tags", "Tag")] "tags" fManyTags).to_many_relation = true ∧
      (resolveField [("tags", "Tag")] "tags" fManyTags).help_text =
        "\nRequires/renders pk(id) of Tag as integer" ∧
      strContains (resolveField [("tags", "Tag")] "tags" fManyTags).help_text "list" =
        false := by decide

/-- Claim C8, amended: a single relational field resolved through its own
queryset or the `Meta.model` fallback gets the singular `pk(id) of <Model>
as integer` sentence; a to-many relational field gets the `list of pk's ...
objects.` sentence (naming `child_relation`'s queryset model) only when its
own queryset resolves, and gets the singular sentence when resolved through
the `Meta.model` fallback. -/
theorem C8_relational_help_text (meta : List (String × String)) (key : String)
    (f : SField) :
    (∀ m, f.isRelated = true → f.qsModel = some m →
      (resolveField meta key f).help_text = fmtSingleRel f.helpTextAttr m) ∧
    (∀ m, f.isRelated = true → f.qsModel = none →
      (meta.find? (fun q => q.1 == key)).map (fun q => q.2) = some m →
      (resolveField meta key f).help_text = fmtSingleRel f.helpTextAttr m) ∧
    (f.isRelated = false → f.isManyRelated = true → f.qsModel.isSome = true →
      (resolveField meta key f).help_text = fmtListRel f.helpTextAttr f.childQsModel) ∧
    (∀ m, f.isRelated = false → f.isManyRelated = true → f.qsModel = none →
      (meta.find? (fun q => q.1 == key)).map (fun q => q.2) = some m →
      (resolveField meta key f).help_text = fmtSingleRel f.helpTextAttr m) := by
  obtain ⟨ro, rq, wo, ty, ht, many, isCh, isRel, isMRel, chs, qs, cqs, nst⟩ := f
  refine ⟨?_, ?_, ?_, ?_⟩
  · intro m h1 h2
    have h1' : isRel = true := h1
    have h2' : qs = some m := h2
    subst h1' h2'
    simp [resolveField, relationalHelpText, FieldData.help_text, SField.helpTextAttr]
  · intro m h1 h2 h3
    have h1' : isRel = true := h1
    have h2' : qs = none := h2
    subst h1' h2'
    simp only [resolveField, relationalHelpText, FieldData.help_text,
      SField.helpTextAttr, if_true]
    rw [h3]
  · intro h1 h2 h3
    have h1' : isRel = false := h1
    have h2' : isMRel = true := h2
    subst h1' h2'
    obtain ⟨m, hm⟩ := Option.isSome_iff_exists.mp h3
    have hm' : qs = some m := hm
    subst hm'
    simp [resolveField, relationalHelpText, FieldData.help_text,
      SField.helpTextAttr, SField.childQsModel]
  · intro m h1 h2 h3 h4
    have h1' : isRel = false := h1
    have h2' : isMRel = true := h2
    have h3' : qs = none := h3
    subst h1' h2' h3'
    simp only [resolveField, relationalHelpText, FieldData.help_text,
      SField.helpTextAttr, Bool.false_eq_true, if_false, if_true]
    rw [h4]

/-- Witness for `C8_relational_help_text`: a queryset-resolvable to-many
field gets the list wording. -/
theorem C8_relational_help_text_witness :
    (resolveField [] "tags" fManyTagsQs).help_text =
      fmtListRel fManyTagsQs.helpTextAttr fManyTagsQs.childQsModel :=
  (C8_relational_help_text [] "tags" fManyTagsQs).2.2.1 rfl rfl rfl

theorem resolveField_sub_fields (meta : List (String × String)) (key : String)
    (f : SField) :
    (resolveField meta key f).sub_fields = (f.nested).map resolveSerializer := by
  obtain ⟨ro, rq, wo, ty, ht, many, isCh, isRel, isMRel, chs, qs, cqs, nst⟩ := f
  cases many <;> cases nst <;> rfl

theorem resolveFieldList_length (meta : List (String × String))
    (fields : List (String × SField)) :
    (resolveFieldList meta fields).length = fields.length := by
  induction fields with
  | nil => rfl
  | cons kf rest ih =>
    obtain ⟨k, f⟩ := kf
    rw [resolveFieldList, List.length_cons, List.length_cons, ih]

theorem resolveFieldList_get (meta : List (String × String)) :
    ∀ (fields : List (String × SField)) (i : Nat)
      (h1 : i < (resolveFieldList meta fields).length) (h2 : i < fields.length),
      (resolveFieldList meta fields).get ⟨i, h1⟩ =
        resolveField meta (fields.get ⟨i, h2⟩).1 (fields.get ⟨i, h2⟩).2 := by
  intro fields
  induction fields with
  | nil =>
    intro i h1 h2
    cases h2
  | cons kf rest ih =>
    intro i h1 h2
    obtain ⟨k, f⟩ := kf
    cases i with
    | zero => rfl
    | succ j =>
      have h1' : j < (resolveFieldList meta rest).length := by
        have := h1
        rw [resolveFieldList, List.length_cons] at this
        omega
      exact ih j h1' (Nat.lt_of_succ_lt_succ h2)

/-- Claim C9 as stated is false: a single-valued nested serializer field
(composite but not a to-many relation) also gets `sub_fields` — the
resolver recurses into the field itself — so `sub_fields` is not absent for
every field that is not a to-many composite. -/
theorem C9_counterexample :
    (resolveField [] "address" fNestedSingle).to_many_relation = false ∧
      (resolveField [] "address" fNestedSingle).sub_fields =
        some [FieldData.mk "city" false "CharField" none true false "" false none] ∧
      (resolveField [] "address" fNestedSingle).sub_fields ≠ none := by
  refine ⟨rfl, rfl, ?_⟩
  intro h
  rw [show (resolveField [] "address" fNestedSingle).sub_fields =
      some [FieldData.mk "city" false "CharField" none true false "" false none] from rfl] at h
  cases h

/-- Claim C9, amended: a field's `sub_fields` entry is present exactly when
the field is a composite/nested schema (`isinstance(field, BaseSerializer)`,
i.e. `nested` present): for a to-many composite it is the recursively
resolved field list of the element type, for a single composite the field's
own resolved field list, and it is `None` for every non-composite field
(including to-many relations with non-composite elements); positionally,
the resolver maps each declared field to one record with exactly that
`sub_fields` value. -/
theorem C9_sub_fields (meta : List (String × String)) (key : String) (f : SField)
    (fields : List (String × SField)) :
    (resolveField meta key f).sub_fields = (f.nested).map resolveSerializer ∧
    (f.nested = none → (resolveField meta key f).sub_fields = none) ∧
    (resolveFieldList meta fields).length = fields.length ∧
    ∀ (i : Nat) (h1 : i < (resolveFieldList meta fields).length)
      (h2 : i < fields.length),
      ((resolveFieldList meta fields).get ⟨i, h1⟩).sub_fields =
        ((fields.get ⟨i, h2⟩).2.nested).map resolveSerializer := by
  refine ⟨resolveField_sub_fields meta key f, ?_, resolveFieldList_length meta fields, ?_⟩
  · intro hn
    rw [resolveField_sub_fields meta key f, hn]
    rfl
  · intro i h1 h2
    rw [resolveFieldList_get meta fields i h1 h2,
      resolveField_sub_fields meta (fields.get ⟨i, h2⟩).1 (fields.get ⟨i, h2⟩).2]

/-- Witness for `C9_sub_fields` at a concrete one-field serializer whose
single field is a non-many nested serializer. -/
theorem C9_sub_fields_witness :
    (resolveField [] "address" fNestedSingle).sub_fields =
      (fNestedSingle.nested).map resolveSerializer ∧
    ((resolveFieldList [] [("address", fNestedSingle)]).get ⟨0, by decide⟩).sub_fields =
      ((([("address", fNestedSingle)] : List (String × SField)).get ⟨0, by decide⟩).2.nested).map
        resolveSerializer :=
  ⟨(C9_sub_fields [] "address" fNestedSingle [("address", fNestedSingle)]).1,
    (C9_sub_fields [] "address" fNestedSingle [("address", fNestedSingle)]).2.2.2 0
      (by decide) (by decide)⟩

theorem buildSequence_get_fst (inputs : List BuildInput) :
    ∀ (start i : Nat) (h : i < (buildSequence start inputs).length),
      ((buildSequence start inputs).get ⟨i, h⟩).1 = start + i := by
  induction inputs with
  | nil =>
    intro start i h
    simp [buildSequence] at h
  | cons a rest ih =>
    intro start i h
    cases i with
    | zero => simp [buildSequence]
    | succ j =>
      have h' : j < (buildSequence (start + 1) rest).length := by
        rw [buildSequence, List.length_cons] at h
        omega
      have hg : ((buildSequence start (a :: rest)).get ⟨j + 1, h⟩) =
          ((buildSequence (start + 1) rest).get ⟨j, h'⟩) := rfl
      rw [hg, ih]
      omega

/-- Claim C10: across a sequence of constructions sharing the class counter,
assigned ids are strictly increasing — an earlier construction's id is
strictly below a later one's, so no id is ever reused — and every
successfully constructed endpoint records as `id` exactly the counter value
read at its construction. -/
theorem C10_ids_strictly_increasing (start : Nat) (inputs : List BuildInput)
    (i j : Nat) (hi : i < (buildSequence start inputs).length)
    (hj : j < (buildSequence start inputs).length) (hij : i < j) :
    ((buildSequence start inputs).get ⟨i, hi⟩).1 <
      ((buildSequence start inputs).get ⟨j, hj⟩).1 ∧
    ∀ (c : Nat) (nv : Bool) (p : PatternModel) (v : ViewModel) (pfx : String),
      ((buildEndpoint c nv p v pfx).map Endpoint.id).getD c = c := by
  constructor
  · rw [buildSequence_get_fst inputs start i hi, buildSequence_get_fst inputs start j hj]
    omega
  · intro c nv p v pfx
    rw [buildEndpoint]
    by_cases hr : v.hasReqRes = true
    · rw [if_pos hr]
      cases parseReqResDoc v with
      | none => rfl
      | some texts => rfl
    · rw [if_neg hr]
      rfl

/-- Witness for `C10_ids_strictly_increasing` on a two-element construction
sequence. -/
theorem C10_ids_strictly_increasing_witness :
    ((buildSequence 0 [biX, biX]).get ⟨0, by decide⟩).1 <
      ((buildSequence 0 [biX, biX]).get ⟨1, by decide⟩).1 ∧
    ((buildEndpoint 5 false ⟨"x", none⟩ vUserList "").map Endpoint.id).getD 5 = 5 :=
  ⟨(C10_ids_strictly_increasing 0 [biX, biX] 0 1 (by decide) (by decide) (by decide)).1,
    (C10_ids_strictly_increasing 0 [biX, biX] 0 1 (by decide) (by decide)
      (by decide)).2 5 false ⟨"x", none⟩ vUserList ""⟩

end DrfAutodocs
